import Mathlib

/-!
Verification development for the gogetopt option parser (getopt.go).

Strings are modelled as lists of characters (`Str`), Go maps as association
lists (lookup finds the first matching key; insert replaces an existing
binding; erase removes it).  The anchored regular expressions of the source
(`^-.+`, `^--.+`, `^-.+=`, `^--.+=`) are modelled directly, with `.` matching
any character except a newline, as in Go's regexp package.  The scan loop of
`Parse` is modelled as a per-token step function (`parseStep`, the loop body,
whose `cont2` outcome corresponds to the `i++` advance past a consumed
lookahead value) driven by a structurally recursive loop (`parseLoop`).
-/

namespace Gogetopt

abbrev Str := List Char

def toStr (s : String) : Str := s.data

/-- Association-list lookup: first binding of the key, as in a Go map read. -/
def alistLookup {β : Type} : List (Str × β) → Str → Option β
  | [], _ => none
  | (k, v) :: rest, key => if k = key then some v else alistLookup rest key

/-- Association-list insert: replace the first binding of the key, or append. -/
def alistInsert {β : Type} : List (Str × β) → Str → β → List (Str × β)
  | [], key, v => [(key, v)]
  | (k, w) :: rest, key, v =>
    if k = key then (key, v) :: rest else (k, w) :: alistInsert rest key v

/-- Association-list erase: drop every binding of the key, as in Go `delete`. -/
def alistErase {β : Type} : List (Str × β) → Str → List (Str × β)
  | [], _ => []
  | (k, w) :: rest, key =>
    if k = key then alistErase rest key else (k, w) :: alistErase rest key

/-- One registered option (struct `opt` in getopt.go). -/
structure Opt where
  key : Str
  long : Str
  short : Str
  isBool : Bool
  required : Bool
  usage : Str
deriving DecidableEq, Repr

/-- The registry's package-level lookup tables: `opts`, `shortKeys`,
`longKeys` and `requiredOpts`. -/
structure Registry where
  opts : List (Str × Opt)
  shortKeys : List (Str × Opt)
  longKeys : List (Str × Opt)
  requiredOpts : List (Str × Bool)
deriving DecidableEq, Repr

def emptyRegistry : Registry := ⟨[], [], [], []⟩

/-- The package-level value holders written by `Parse`: `boolVals`,
`stringVals`, `extraArgs` and `parseError` (empty string means no error). -/
structure ScanSt where
  boolVals : List (Str × Bool)
  stringVals : List (Str × Str)
  extraArgs : List Str
  parseError : Str
deriving DecidableEq, Repr

def emptyScan : ScanSt := ⟨[], [], [], []⟩

def ERR_MISSING_VAL : Str := toStr "Missing value for option: "
def ERR_NO_OPT : Str := toStr "No such option: "
def ERR_BOOL_REQ : Str := toStr "An option can't be both boolean and required: "
def ERR_REQ : Str := toStr "Required option(s) not provided: "
def ERR_BOOL_WITH_VAL : Str := toStr "Boolean options can't be passed values: "
def ERR_NONBOOL_MULTI : Str := toStr "Combined opts can't be non-boolean: "
def ERR_NO_KEY : Str := toStr "An option must contain either a long or short key (or both): "
def ERR_SHORT_TOO_LONG : Str := toStr "A short option can be no longer one character: "
def ERR_LONG_TOO_SHORT : Str := toStr "A long option must be longer than one character: "
def ERR_OPT_KEY_ALREADY_EXISTS : Str := toStr "An option was already registered with key: "
def ERR_SHORT_ALREADY_EXISTS : Str := toStr "An option was already registered with short key: "
def ERR_LONG_ALREADY_EXISTS : Str := toStr "An option was already registered with long key: "

/-- Sentinel for the places where the Go code would dereference a nil pointer
or index an empty string; all of them are unreachable from `Parse`. -/
def NIL_PANIC : Str := toStr "go runtime: nil dereference"

/-- After at least one character has been consumed by `.+`, is there an `=`
reachable through non-newline characters?  Auxiliary to the `-.+=` regexes. -/
def eqReach : Str → Bool
  | [] => false
  | c :: rest => c == '=' || (c != '\n' && eqReach rest)

/-- `singleDash.MatchString`, regex `^-.+`. -/
def matchSingleDash : Str → Bool
  | c0 :: c1 :: _ => c0 == '-' && c1 != '\n'
  | _ => false

/-- `multiDash.MatchString`, regex `^--.+`. -/
def matchMultiDash : Str → Bool
  | c0 :: c1 :: c2 :: _ => c0 == '-' && c1 == '-' && c2 != '\n'
  | _ => false

/-- `singleDashEquals.MatchString`, regex `^-.+=`. -/
def matchSingleDashEquals : Str → Bool
  | c0 :: c1 :: rest => c0 == '-' && c1 != '\n' && eqReach rest
  | _ => false

/-- `multiDashEquals.MatchString`, regex `^--.+=`. -/
def matchMultiDashEquals : Str → Bool
  | c0 :: c1 :: c2 :: rest => c0 == '-' && c1 == '-' && c2 != '\n' && eqReach rest
  | _ => false

/-- The disjunction of the four argument classifiers, in the order
`lookaheadForVal` tests them. -/
def isOptForm (s : Str) : Bool :=
  matchSingleDashEquals s || matchSingleDash s || matchMultiDashEquals s || matchMultiDash s

/-- Does the token start with a dash character at all? -/
def hasLeadingDash : Str → Bool
  | c :: _ => c == '-'
  | [] => false

/-- `stripDashes`: remove the `--` or `-` prefix when the corresponding
anchored regex matches. -/
def stripDashes (arg : Str) : Str :=
  if matchMultiDash arg then arg.drop 2
  else if matchSingleDash arg then arg.drop 1
  else arg

/-- `strings.Split(s, "=")`. -/
def splitOnEq : Str → List Str
  | [] => [[]]
  | c :: rest =>
    if c == '=' then [] :: splitOnEq rest
    else
      match splitOnEq rest with
      | p :: ps => (c :: p) :: ps
      | [] => [[c]]

/-- `splitEqualsArg`: dash-strip, split on `=`, succeed only with exactly two
parts and a non-empty second part. -/
def splitEqualsArg (arg : Str) : Option (Str × Str) :=
  let workingArg := stripDashes arg
  match splitOnEq workingArg with
  | [p0, p1] => if p1.length > 0 then some (p0, p1) else none
  | _ => none

/-- Shared tail of `getValForEqualsSignArg` after the option lookup: the
boolean check, the (dead) empty-value check, and the success return. -/
def eqArgFinish (arg p1 : Str) (o : Opt) : Except Str (Str × Str) :=
  if o.isBool then .error (ERR_BOOL_WITH_VAL ++ arg)
  else if p1.length < 1 then .error (ERR_MISSING_VAL ++ arg)
  else .ok (o.key, p1)

/-- `getValForEqualsSignArg`.  In the branch where neither dash regex matches,
the Go code leaves `opt` nil and would panic at `opt.isBool`; that branch is
unreachable from `Parse`, which only calls this under an equals classifier. -/
def getValForEqualsSignArg (reg : Registry) (arg : Str) : Except Str (Str × Str) :=
  match splitEqualsArg arg with
  | none => .error (ERR_MISSING_VAL ++ arg)
  | some (p0, p1) =>
    if matchMultiDash arg then
      match alistLookup reg.longKeys p0 with
      | none => .error (ERR_NO_OPT ++ p0)
      | some o => eqArgFinish arg p1 o
    else if matchSingleDash arg then
      match alistLookup reg.shortKeys p0 with
      | none => .error (ERR_NO_OPT ++ p0)
      | some o => eqArgFinish arg p1 o
    else .error NIL_PANIC

/-- The loop of `getMultiOptKeys`: collect each character as a one-character
key, bailing out (`nil`) at the first character absent from `shortKeys`. -/
def multiKeysGo (reg : Registry) : List Char → Option (List Str)
  | [] => some []
  | c :: rest =>
    if (alistLookup reg.shortKeys [c]).isSome then
      match multiKeysGo reg rest with
      | some ks => some ([c] :: ks)
      | none => none
    else none

/-- `getMultiOptKeys`. -/
def getMultiOptKeys (reg : Registry) (arg : Str) : Option (List Str) :=
  multiKeysGo reg (stripDashes arg)

/-- First validation pass over a combined-opt key list: error at the first
non-boolean member.  A key absent from `shortKeys` would make the Go code
dereference nil; `getMultiOptKeys` guarantees presence. -/
def multiOptFirstPassErr (reg : Registry) : List Str → Option Str
  | [] => none
  | k :: rest =>
    match alistLookup reg.shortKeys k with
    | none => some NIL_PANIC
    | some o =>
      if o.isBool then multiOptFirstPassErr reg rest
      else some (ERR_NONBOOL_MULTI ++ k)

/-- Second pass over a combined-opt key list: mark every member present. -/
def multiOptSecondPass (reg : Registry) (bv : List (Str × Bool)) :
    List Str → List (Str × Bool)
  | [] => bv
  | k :: rest =>
    match alistLookup reg.shortKeys k with
    | none => multiOptSecondPass reg bv rest
    | some o => multiOptSecondPass reg (alistInsert bv o.key true) rest

/-- `lookaheadForVal(args, i)` where the argument list here is `args[i+1:]`:
return the next token unless it matches one of the four classifiers, with the
empty string doubling as the not-found sentinel. -/
def lookaheadForVal : List Str → Str
  | [] => []
  | nextVal :: _ =>
    if matchSingleDashEquals nextVal || matchSingleDash nextVal ||
       matchMultiDashEquals nextVal || matchMultiDash nextVal then []
    else nextVal

/-- The `opts[key]` re-lookup the equals branch of `Parse` performs before
recording a required option as found. -/
def markFoundViaOpts (reg : Registry) (fr : List (Str × Bool)) (key : Str) :
    List (Str × Bool) :=
  match alistLookup reg.opts key with
  | some o => if o.required then alistInsert fr key true else fr
  | none => fr

/-- Outcome of one iteration of the scan loop: record an error and return,
continue with the next token, or continue past a consumed lookahead value
(the `i++` of the source). -/
inductive StepRes where
  | halt (e : Str)
  | cont (st : ScanSt) (fr : List (Str × Bool))
  | cont2 (st : ScanSt) (fr : List (Str × Bool))
deriving DecidableEq, Repr

/-- The body of the main loop of `Parse`, for the token `arg` with the
remaining tokens `rest` after it. -/
def parseStep (reg : Registry) (arg : Str) (rest : List Str) (st : ScanSt)
    (fr : List (Str × Bool)) : StepRes :=
  if matchSingleDashEquals arg || matchMultiDashEquals arg then
    match getValForEqualsSignArg reg arg with
    | .error e => .halt e
    | .ok (key, val) =>
      .cont { st with stringVals := alistInsert st.stringVals key val }
        (markFoundViaOpts reg fr key)
  else if matchMultiDash arg then
    match alistLookup reg.longKeys (stripDashes arg) with
    | none => .halt (ERR_NO_OPT ++ arg)
    | some o =>
      if o.isBool then
        .cont { st with boolVals := alistInsert st.boolVals o.key true } fr
      else
        let val := lookaheadForVal rest
        if val = [] then .halt (ERR_MISSING_VAL ++ arg)
        else
          .cont2 { st with stringVals := alistInsert st.stringVals o.key val }
            (if o.required then alistInsert fr o.key true else fr)
  else if matchSingleDash arg then
    let stripped := stripDashes arg
    if stripped.length = 1 then
      match alistLookup reg.shortKeys stripped with
      | some o =>
        if o.isBool then
          .cont { st with boolVals := alistInsert st.boolVals o.key true } fr
        else
          let val := lookaheadForVal rest
          if val = [] then .halt (ERR_MISSING_VAL ++ arg)
          else
            .cont2 { st with stringVals := alistInsert st.stringVals o.key val }
              (if o.required then alistInsert fr o.key true else fr)
      | none => .halt (ERR_NO_OPT ++ arg)
    else
      match getMultiOptKeys reg arg with
      | some multiOpts =>
        match multiOptFirstPassErr reg multiOpts with
        | some e => .halt e
        | none =>
          .cont { st with boolVals := multiOptSecondPass reg st.boolVals multiOpts } fr
      | none =>
        match stripped with
        | [] => .halt NIL_PANIC
        | c0 :: valChars =>
          match alistLookup reg.shortKeys [c0] with
          | none => .halt (ERR_NO_OPT ++ [c0])
          | some o =>
            if o.isBool then .halt (ERR_BOOL_WITH_VAL ++ arg)
            else
              .cont { st with stringVals := alistInsert st.stringVals o.key valChars }
                (if o.required then alistInsert fr o.key true else fr)
  else
    .cont { st with extraArgs := st.extraArgs ++ [arg] } fr

/-- The main loop of `Parse` over `args[1:]`, threading the value holders and
the local `foundReqs` map; the boolean records whether the loop returned early
on an error.  A `cont2` with an empty tail cannot happen (`lookaheadForVal`
returns the sentinel then); the recursion keeps that case total. -/
def parseLoop (reg : Registry) :
    List Str → ScanSt → List (Str × Bool) → ScanSt × List (Str × Bool) × Bool
  | [], st, fr => (st, fr, false)
  | arg :: rest, st, fr =>
    match parseStep reg arg rest st fr with
    | .halt e => ({ st with parseError := e }, fr, true)
    | .cont st₂ fr₂ => parseLoop reg rest st₂ fr₂
    | .cont2 st₂ fr₂ =>
      match rest with
      | [] => (st₂, fr₂, false)
      | _ :: rest' => parseLoop reg rest' st₂ fr₂

/-- The keys of `requiredOpts` that `foundReqOpts` is missing, in iteration
order (map iteration order modelled as the list order). -/
def missingKeysOf (foundReqOpts requiredOpts : List (Str × Bool)) : List Str :=
  (requiredOpts.map Prod.fst).filter (fun k => (alistLookup foundReqOpts k).isNone)

/-- The display form of one missing key inside `getMissingReqOptsError`:
the plain key, successively overwritten by `-short`, `--long`, and the
combined phrasing. -/
def msgKeyFor (opts : List (Str × Opt)) (mk : Str) : Str :=
  match alistLookup opts mk with
  | none => mk
  | some o =>
    let m1 := if o.short ≠ [] then toStr "-" ++ o.short else mk
    let m2 := if o.long ≠ [] then toStr "--" ++ o.long else m1
    if o.short ≠ [] ∧ o.long ≠ [] then
      toStr "-" ++ o.short ++ toStr " or " ++ toStr "--" ++ o.long
    else m2

/-- Comma-join of the missing-key display forms. -/
def joinMissing (opts : List (Str × Opt)) : List Str → Str
  | [] => []
  | [mk] => msgKeyFor opts mk
  | mk :: rest => msgKeyFor opts mk ++ toStr ", " ++ joinMissing opts rest

/-- `getMissingReqOptsError`. -/
def getMissingReqOptsError (foundReqOpts requiredOpts : List (Str × Bool))
    (opts : List (Str × Opt)) : Str :=
  let missingKeys := missingKeysOf foundReqOpts requiredOpts
  if missingKeys.length > 0 then ERR_REQ ++ joinMissing opts missingKeys
  else []

/-- `Parse`, with the argument vector and the package-level value holders
passed explicitly.  `args[0]` is the program name and is skipped. -/
def Parse (reg : Registry) (st0 : ScanSt) (args : List Str) : ScanSt :=
  if args.length < 2 then
    if 0 < reg.requiredOpts.length then
      { st0 with parseError := getMissingReqOptsError [] reg.requiredOpts reg.opts }
    else st0
  else
    match parseLoop reg (args.drop 1) st0 [] with
    | (st, fr, aborted) =>
      if aborted then st
      else if 0 < reg.requiredOpts.length then
        { st with parseError := getMissingReqOptsError fr reg.requiredOpts reg.opts }
      else st

/-- `GetString`. -/
def GetString (st : ScanSt) (key : Str) : Str :=
  match alistLookup st.stringVals key with
  | some v => v
  | none => []

/-- `GetBool`. -/
def GetBool (st : ScanSt) (key : Str) : Bool :=
  (alistLookup st.boolVals key).isSome

/-- `GetArgs`. -/
def GetArgs (st : ScanSt) : List Str := st.extraArgs

/-- `HasError`. -/
def HasError (st : ScanSt) : Bool :=
  if st.parseError = [] then false else true

/-- The option value a registration call builds before validating. -/
def mkOpt (key long short : Str) (isBool isReq : Bool) (usage : Str) : Opt :=
  { key := key, long := stripDashes long, short := stripDashes short,
    isBool := isBool, required := isReq, usage := usage }

/-- The mutation block of `RegisterOpt`: assign the option to the various
maps as applicable. -/
def registryInsert (reg : Registry) (o : Opt) : Registry :=
  let reg1 := { reg with opts := alistInsert reg.opts o.key o }
  let reg2 := if o.short ≠ [] then { reg1 with shortKeys := alistInsert reg1.shortKeys o.short o } else reg1
  let reg3 := if o.long ≠ [] then { reg2 with longKeys := alistInsert reg2.longKeys o.long o } else reg2
  if o.required then { reg3 with requiredOpts := alistInsert reg3.requiredOpts o.key true } else reg3

/-- `RegisterOpt`: validate, then insert into every applicable index.  The
updated registry is returned alongside the optional error so that the
all-or-nothing behaviour is visible. -/
def RegisterOpt (reg : Registry) (key long short : Str) (isBool isReq : Bool)
    (usage : Str) : Option Str × Registry :=
  let o : Opt := mkOpt key long short isBool isReq usage
  if o.isBool = true ∧ o.required = true then (some (ERR_BOOL_REQ ++ o.key), reg)
  else if o.short = [] ∧ o.long = [] then (some (ERR_NO_KEY ++ o.key), reg)
  else if o.short ≠ [] ∧ o.short.length > 1 then (some (ERR_SHORT_TOO_LONG ++ o.short), reg)
  else if o.long ≠ [] ∧ o.long.length < 2 then (some (ERR_LONG_TOO_SHORT ++ o.long), reg)
  else if (alistLookup reg.opts o.key).isSome then (some (ERR_OPT_KEY_ALREADY_EXISTS ++ o.key), reg)
  else if o.short ≠ [] ∧ (alistLookup reg.shortKeys o.short).isSome then
    (some (ERR_SHORT_ALREADY_EXISTS ++ o.short), reg)
  else if o.long ≠ [] ∧ (alistLookup reg.longKeys o.long).isSome then
    (some (ERR_LONG_ALREADY_EXISTS ++ o.long), reg)
  else (none, registryInsert reg o)

/-- `Clear`: remove one option from every index it participates in, together
with its bound value. -/
def Clear (reg : Registry) (st : ScanSt) (key : Str) : Registry × ScanSt :=
  match alistLookup reg.opts key with
  | none => (reg, st)
  | some opt =>
    let reg1 := if opt.short ≠ [] then { reg with shortKeys := alistErase reg.shortKeys opt.short } else reg
    let reg2 := if opt.long ≠ [] then { reg1 with longKeys := alistErase reg1.longKeys opt.long } else reg1
    let reg3 := if opt.required then { reg2 with requiredOpts := alistErase reg2.requiredOpts opt.key } else reg2
    let st1 :=
      if opt.isBool then { st with boolVals := alistErase st.boolVals opt.key }
      else { st with stringVals := alistErase st.stringVals opt.key }
    ({ reg3 with opts := alistErase reg3.opts key }, st1)

/-- `ClearAll`: clear every registered option (Go ranges over the `opts` map;
the iteration order, unspecified there, is modelled as the list order), then
reset the extra arguments and any parse error. -/
def ClearAll (reg : Registry) (st : ScanSt) : Registry × ScanSt :=
  let p := (reg.opts.map Prod.fst).foldl (fun acc k => Clear acc.1 acc.2 k) (reg, st)
  (p.1, { p.2 with extraArgs := [], parseError := [] })

/-- One mutating operation on the registry surface. -/
inductive RegAction where
  | register (key long short : Str) (isBool isReq : Bool) (usage : Str)
  | clearOne (key : Str)
  | clearAll
deriving Repr

def applyAction : Registry × ScanSt → RegAction → Registry × ScanSt
  | (reg, st), .register k l s b r u => ((RegisterOpt reg k l s b r u).2, st)
  | (reg, st), .clearOne k => Clear reg st k
  | (reg, st), .clearAll => ClearAll reg st

/-- The registry and scan state after a sequence of operations starting from
the initial (post-`init()`) empty state. -/
def applyActions (acts : List RegAction) : Registry × ScanSt :=
  acts.foldl applyAction (emptyRegistry, emptyScan)

/-- Mutual consistency of the three lookup indexes and the required set: an
option stored in the short-form (resp. long-form) index sits there under its
own non-empty short (resp. long) form and is the canonical entry for its key;
a canonical entry is reachable through each of its non-empty forms; and the
required set holds exactly the keys of registered options marked required. -/
def consistentReg (reg : Registry) : Prop :=
  (∀ s o, alistLookup reg.shortKeys s = some o →
      o.short = s ∧ s ≠ [] ∧ alistLookup reg.opts o.key = some o)
  ∧ (∀ l o, alistLookup reg.longKeys l = some o →
      o.long = l ∧ l ≠ [] ∧ alistLookup reg.opts o.key = some o)
  ∧ (∀ k o, alistLookup reg.opts k = some o →
      o.key = k
      ∧ (o.short ≠ [] → alistLookup reg.shortKeys o.short = some o)
      ∧ (o.long ≠ [] → alistLookup reg.longKeys o.long = some o))
  ∧ (∀ k, (alistLookup reg.requiredOpts k).isSome ↔
      ∃ o, alistLookup reg.opts k = some o ∧ o.required = true)

/-! Concrete registries used by witnesses and counterexamples. -/

/-- A non-required, non-boolean option with short `t` and long `test`. -/
def tReg : Registry :=
  (RegisterOpt emptyRegistry (toStr "test") (toStr "test") (toStr "t") false false []).2

/-- A required, non-boolean option with short `t` and long `test`. -/
def tReqReg : Registry :=
  (RegisterOpt emptyRegistry (toStr "test") (toStr "test") (toStr "t") false true []).2

/-- A non-boolean option with only the long form `xx`. -/
def xxReg : Registry :=
  (RegisterOpt emptyRegistry (toStr "xx") (toStr "xx") [] false false []).2

/-- The option stored in `xxReg`. -/
def xxOpt : Opt :=
  { key := toStr "xx", long := toStr "xx", short := [],
    isBool := false, required := false, usage := [] }

/-- A non-boolean option with only the short form `f`. -/
def fReg : Registry :=
  (RegisterOpt emptyRegistry (toStr "f") [] (toStr "f") false false []).2

/-- The option stored in `fReg`. -/
def fOpt : Opt :=
  { key := toStr "f", long := [], short := toStr "f",
    isBool := false, required := false, usage := [] }

/-- A registry used to exhibit a duplicate-key registration error. -/
def dupRegBase : Registry :=
  (RegisterOpt emptyRegistry (toStr "k") (toStr "long") (toStr "l") true false []).2

/-- Boolean options `a` and `b` plus the non-boolean option `f`, all short. -/
def abfReg : Registry :=
  (RegisterOpt
    (RegisterOpt
      (RegisterOpt emptyRegistry (toStr "a") [] (toStr "a") true false []).2
      (toStr "b") [] (toStr "b") true false []).2
    (toStr "f") [] (toStr "f") false false []).2

/-! Association-list facts. -/

theorem alistLookup_insert {β : Type} (m : List (Str × β)) (k k' : Str) (v : β) :
    alistLookup (alistInsert m k v) k' = if k' = k then some v else alistLookup m k' := by
  induction m with
  | nil =>
    by_cases h : k' = k
    · subst h; simp [alistInsert, alistLookup]
    · simp [alistInsert, alistLookup, h, Ne.symm h]
  | cons p rest ih =>
    obtain ⟨k₀, w⟩ := p
    by_cases h0 : k₀ = k
    · subst h0
      by_cases h : k' = k₀
      · subst h; simp [alistInsert, alistLookup]
      · simp [alistInsert, alistLookup, h, Ne.symm h]
    · by_cases h : k' = k₀
      · subst h
        simp [alistInsert, alistLookup, h0]
      · simp [alistInsert, alistLookup, h0, h, Ne.symm h, ih]

theorem alistLookup_erase {β : Type} (m : List (Str × β)) (k k' : Str) :
    alistLookup (alistErase m k) k' = if k' = k then none else alistLookup m k' := by
  induction m with
  | nil =>
    by_cases h : k' = k
    · subst h; simp [alistErase, alistLookup]
    · simp [alistErase, alistLookup, h]
  | cons p rest ih =>
    obtain ⟨k₀, w⟩ := p
    by_cases h0 : k₀ = k
    · subst h0
      by_cases h : k' = k₀
      · subst h; simp [alistErase, alistLookup, ih]
      · simp [alistErase, alistLookup, h, Ne.symm h, ih]
    · by_cases h : k' = k₀
      · subst h
        simp [alistErase, alistLookup, h0, Ne.symm h0]
      · simp [alistErase, alistLookup, h0, h, Ne.symm h, ih]

theorem alistLookup_isSome_iff {β : Type} (m : List (Str × β)) (k : Str) :
    (alistLookup m k).isSome ↔ k ∈ m.map Prod.fst := by
  induction m with
  | nil =>
    exact iff_of_false (by simp [alistLookup])
      (by simp only [List.map_nil]; exact List.not_mem_nil k)
  | cons p rest ih =>
    obtain ⟨k₀, w⟩ := p
    by_cases h : k₀ = k
    · subst h
      exact iff_of_true (by simp [alistLookup])
        (by simp only [List.map_cons]; exact List.mem_cons_self _ _)
    · simp only [alistLookup, h, if_false, List.map_cons, List.mem_cons]
      rw [ih]
      exact ⟨Or.inr, fun hc => hc.elim (fun he => absurd he.symm h) id⟩

/-! Small string facts. -/

theorem ne_nil_append {l x : Str} (h : l ≠ []) : l ++ x ≠ [] := by
  cases l with
  | nil => exact absurd rfl h
  | cons a t => simp

theorem splitOnEq_ne_nil (s : Str) : splitOnEq s ≠ [] := by
  induction s with
  | nil => simp [splitOnEq]
  | cons c rest ih =>
    by_cases h : c == '='
    · simp [splitOnEq, h]
    · simp only [splitOnEq, h, Bool.false_eq_true, if_false]
      cases hs : splitOnEq rest with
      | nil => simp
      | cons p ps => simp

theorem splitOnEq_length (s : Str) : (splitOnEq s).length = s.count '=' + 1 := by
  induction s with
  | nil => simp [splitOnEq]
  | cons c rest ih =>
    by_cases h : c = '='
    · subst h
      simp [splitOnEq, List.count_cons, ih]
    · have hb : (c == '=') = false := by simp [h]
      simp only [splitOnEq, hb, Bool.false_eq_true, if_false]
      cases hs : splitOnEq rest with
      | nil => exact absurd hs (splitOnEq_ne_nil rest)
      | cons p ps =>
        rw [hs] at ih
        simp only [List.length_cons] at ih ⊢
        simp [List.count_cons, h, ih]

theorem splitEqualsArg_val_pos (arg l v : Str) (h : splitEqualsArg arg = some (l, v)) :
    0 < v.length := by
  simp only [splitEqualsArg] at h
  cases hs : splitOnEq (stripDashes arg) with
  | nil => rw [hs] at h; simp at h
  | cons p ps =>
    rw [hs] at h
    cases ps with
    | nil => simp at h
    | cons p1 ps2 =>
      cases ps2 with
      | nil =>
        by_cases hl : p1.length > 0
        · simp [hl] at h
          exact h.2 ▸ hl
        · simp [hl] at h
      | cons p2 ps3 => simp at h

/-! Classifier helpers. -/

theorem isOptForm_false_parts (t : Str) (h : isOptForm t = false) :
    matchSingleDashEquals t = false ∧ matchSingleDash t = false ∧
    matchMultiDashEquals t = false ∧ matchMultiDash t = false := by
  simp only [isOptForm, Bool.or_eq_false_iff] at h
  exact ⟨h.1.1.1, h.1.1.2, h.1.2, h.2⟩

/-- A token matching none of the four classifiers is consumed by the final
`else` branch of the loop: appended verbatim to `extraArgs`, no error,
nothing else changed. -/
theorem parseStep_nonOptForm (reg : Registry) (t : Str) (rest : List Str)
    (st : ScanSt) (fr : List (Str × Bool)) (hform : isOptForm t = false) :
    parseStep reg t rest st fr = .cont { st with extraArgs := st.extraArgs ++ [t] } fr := by
  obtain ⟨h1, h2, h3, h4⟩ := isOptForm_false_parts t hform
  simp [parseStep, h1, h2, h3, h4]

/-- A token list made only of non-classifier tokens scans to exactly those
tokens appended in order, with no error and no abort. -/
theorem parseLoop_all_nonOptForm (reg : Registry) (tokens : List Str) :
    ∀ st fr, (∀ x ∈ tokens, isOptForm x = false) →
      parseLoop reg tokens st fr = ({ st with extraArgs := st.extraArgs ++ tokens }, fr, false) := by
  induction tokens with
  | nil => intro st fr _; simp [parseLoop]
  | cons x xs ih =>
    intro st fr hall
    have hstep := parseStep_nonOptForm reg x xs st fr (hall x (List.mem_cons_self x xs))
    simp only [parseLoop, hstep]
    rw [ih _ fr (fun y hy => hall y (List.mem_cons_of_mem x hy))]
    simp

/-- C1: for every registry, a token with no leading dash, or a lone dash or
double dash, that matches none of the recognized option-form classifiers, is
appended verbatim by its scan step to the positional-argument sequence with
no error; a sequence of such tokens is appended whole, in encounter order,
and the scan completes without error. -/
theorem c1_positional_tokens (reg : Registry) (t : Str)
    (hshape : hasLeadingDash t = false ∨ t = toStr "-" ∨ t = toStr "--")
    (hform : isOptForm t = false) :
    (∀ rest st fr,
        parseStep reg t rest st fr = .cont { st with extraArgs := st.extraArgs ++ [t] } fr)
    ∧ ∀ tokens st fr,
        (∀ x ∈ tokens,
          (hasLeadingDash x = false ∨ x = toStr "-" ∨ x = toStr "--") ∧ isOptForm x = false) →
        parseLoop reg tokens st fr = ({ st with extraArgs := st.extraArgs ++ tokens }, fr, false) :=
  ⟨fun rest st fr => parseStep_nonOptForm reg t rest st fr hform,
   fun tokens st fr hall =>
     parseLoop_all_nonOptForm reg tokens st fr (fun x hx => (hall x hx).2)⟩

theorem c1_positional_tokens_w :
    parseLoop emptyRegistry [toStr "a", toStr "-"] emptyScan []
      = ({ emptyScan with extraArgs := emptyScan.extraArgs ++ [toStr "a", toStr "-"] }, [], false) :=
  (c1_positional_tokens emptyRegistry (toStr "-") (by decide) (by decide)).2
    [toStr "a", toStr "-"] emptyScan [] (by decide)

/-! Equals-form handling (C2). -/

/-- C2 as stated fails on the code: with the non-boolean long option `xx`
registered, the token `--xx=a=b` is not split at the first `=`; `strings.Split`
yields three parts, so the scan errors with MissingValue and binds nothing. -/
theorem c2_counterexample :
    (Parse xxReg emptyScan [toStr "prog", toStr "--xx=a=b"]).parseError
        = ERR_MISSING_VAL ++ toStr "--xx=a=b"
    ∧ GetString (Parse xxReg emptyScan [toStr "prog", toStr "--xx=a=b"]) (toStr "xx") = []
    ∧ HasError (Parse xxReg emptyScan [toStr "prog", toStr "--xx=a=b"]) = true := by
  decide

theorem getValForEqualsSignArg_ok_long (reg : Registry) (arg l v : Str) (o : Opt)
    (hs : splitEqualsArg arg = some (l, v)) (hm : matchMultiDash arg = true)
    (hl : alistLookup reg.longKeys l = some o) (hb : o.isBool = false) :
    getValForEqualsSignArg reg arg = .ok (o.key, v) := by
  have hv := splitEqualsArg_val_pos arg l v hs
  simp [getValForEqualsSignArg, hs, hm, hl, eqArgFinish, hb, Nat.not_lt.mpr hv]

theorem getValForEqualsSignArg_ok_short (reg : Registry) (arg l v : Str) (o : Opt)
    (hs : splitEqualsArg arg = some (l, v)) (hm : matchMultiDash arg = false)
    (hsd : matchSingleDash arg = true)
    (hl : alistLookup reg.shortKeys l = some o) (hb : o.isBool = false) :
    getValForEqualsSignArg reg arg = .ok (o.key, v) := by
  have hv := splitEqualsArg_val_pos arg l v hs
  simp [getValForEqualsSignArg, hs, hm, hsd, hl, eqArgFinish, hb, Nat.not_lt.mpr hv]

/-- C2 (amended): the equals-form split succeeds only when the dash-stripped
token contains exactly one `=`; a remainder with a different number of `=`
characters (in particular a value itself containing `=`) makes the split fail
and the scan halt with MissingValue, while a successful split on the single
`=` binds the non-empty right part verbatim under the option's canonical key. -/
theorem c2_equals_form_binding (reg : Registry) (arg l v : Str) (o : Opt)
    (rest : List Str) (st : ScanSt) (fr : List (Str × Bool)) :
    ((stripDashes arg).count '=' ≠ 1 → splitEqualsArg arg = none)
    ∧ ((matchSingleDashEquals arg || matchMultiDashEquals arg) = true →
        splitEqualsArg arg = none →
        parseStep reg arg rest st fr = .halt (ERR_MISSING_VAL ++ arg))
    ∧ ((matchSingleDashEquals arg || matchMultiDashEquals arg) = true →
        splitEqualsArg arg = some (l, v) →
        matchMultiDash arg = true →
        alistLookup reg.longKeys l = some o →
        o.isBool = false →
        parseStep reg arg rest st fr =
          .cont { st with stringVals := alistInsert st.stringVals o.key v }
            (markFoundViaOpts reg fr o.key))
    ∧ ((matchSingleDashEquals arg || matchMultiDashEquals arg) = true →
        splitEqualsArg arg = some (l, v) →
        matchMultiDash arg = false →
        matchSingleDash arg = true →
        alistLookup reg.shortKeys l = some o →
        o.isBool = false →
        parseStep reg arg rest st fr =
          .cont { st with stringVals := alistInsert st.stringVals o.key v }
            (markFoundViaOpts reg fr o.key)) := by
  refine ⟨?_, ?_, ?_, ?_⟩
  · intro hc
    have hlen := splitOnEq_length (stripDashes arg)
    simp only [splitEqualsArg]
    cases hs : splitOnEq (stripDashes arg) with
    | nil => simp
    | cons p ps =>
      cases ps with
      | nil => simp
      | cons p1 ps2 =>
        cases ps2 with
        | nil =>
          rw [hs] at hlen
          simp only [List.length_cons, List.length_nil] at hlen
          omega
        | cons p2 ps3 => simp
  · intro hguard hs
    simp [parseStep, hguard, getValForEqualsSignArg, hs]
  · intro hguard hs hm hl hb
    have hok := getValForEqualsSignArg_ok_long reg arg l v o hs hm hl hb
    simp [parseStep, hguard, hok]
  · intro hguard hs hm hsd hl hb
    have hok := getValForEqualsSignArg_ok_short reg arg l v o hs hm hsd hl hb
    simp [parseStep, hguard, hok]

theorem c2_equals_form_binding_w :
    parseStep xxReg (toStr "--xx=v") [] emptyScan []
      = .cont { emptyScan with stringVals := alistInsert emptyScan.stringVals (toStr "xx") (toStr "v") }
          (markFoundViaOpts xxReg [] (toStr "xx")) :=
  (c2_equals_form_binding xxReg (toStr "--xx=v") (toStr "xx") (toStr "v") xxOpt
      [] emptyScan []).2.2.1 (by decide) (by decide) (by decide) (by decide) (by decide)

/-! Lookahead of an empty following token (C10). -/

/-- C10: an empty string as the immediately following token is never bound as
a lookahead value: `lookaheadForVal` returns the empty string, its own
not-found sentinel, and both lookahead call sites (bare long option and bare
single-character short option, non-boolean) treat it as absence, so the scan
fails with MissingValue. -/
theorem c10_empty_lookahead_missing_value (reg : Registry) (arg : Str) (o : Opt)
    (rest' : List Str) (st : ScanSt) (fr : List (Str × Bool))
    (hbool : o.isBool = false) :
    lookaheadForVal ([] :: rest') = []
    ∧ ((matchSingleDashEquals arg || matchMultiDashEquals arg) = false →
        matchMultiDash arg = true →
        alistLookup reg.longKeys (stripDashes arg) = some o →
        parseStep reg arg ([] :: rest') st fr = .halt (ERR_MISSING_VAL ++ arg))
    ∧ ((matchSingleDashEquals arg || matchMultiDashEquals arg) = false →
        matchMultiDash arg = false →
        matchSingleDash arg = true →
        (stripDashes arg).length = 1 →
        alistLookup reg.shortKeys (stripDashes arg) = some o →
        parseStep reg arg ([] :: rest') st fr = .halt (ERR_MISSING_VAL ++ arg)) := by
  refine ⟨rfl, ?_, ?_⟩
  · intro h1 h2 hl
    simp [parseStep, h1, h2, hl, hbool, lookaheadForVal]
  · intro h1 h2 h3 hlen hl
    simp [parseStep, h1, h2, h3, hlen, hl, hbool, lookaheadForVal]

theorem c10_empty_lookahead_missing_value_w :
    parseStep xxReg (toStr "--xx") ([] :: []) emptyScan []
      = .halt (ERR_MISSING_VAL ++ toStr "--xx") :=
  (c10_empty_lookahead_missing_value xxReg (toStr "--xx") xxOpt [] emptyScan []
      (by decide)).2.1 (by decide) (by decide) (by decide)

/-! Registration atomicity (C8). -/

/-- C8: a registration call that returns any error performs its validations
before any mutation, leaving the canonical, short and long indexes and the
required set exactly as they were. -/
theorem c8_register_error_atomic (reg : Registry) (key long short : Str)
    (isBool isReq : Bool) (usage : Str) (e : Str) (reg' : Registry)
    (h : RegisterOpt reg key long short isBool isReq usage = (some e, reg')) :
    reg' = reg := by
  simp only [RegisterOpt] at h
  repeat' split at h
  all_goals
    first
      | (injection h with h1 h2; exact h2.symm)
      | (injection h with h1 h2; exact Option.noConfusion h1)

theorem c8_register_error_atomic_w :
    RegisterOpt dupRegBase (toStr "k") (toStr "other") (toStr "x") true false []
        = (some (ERR_OPT_KEY_ALREADY_EXISTS ++ toStr "k"), dupRegBase)
    ∧ dupRegBase = dupRegBase :=
  ⟨by decide,
   c8_register_error_atomic dupRegBase (toStr "k") (toStr "other") (toStr "x")
     true false [] (ERR_OPT_KEY_ALREADY_EXISTS ++ toStr "k") dupRegBase (by decide)⟩

/-! Round trip of the five value forms (C5). -/

/-- C5: with one registered non-boolean option (short `t`, long `test`), each
of `-t=val1`, `--test=val2`, `-t val3`, `--test val4` and `-tval5`, scanned
alone from a fresh result state, binds `val1`..`val5` under the canonical key
`test` with no error. -/
theorem c5_five_value_forms :
    (HasError (Parse tReg emptyScan [toStr "prog", toStr "-t=val1"]) = false
      ∧ GetString (Parse tReg emptyScan [toStr "prog", toStr "-t=val1"]) (toStr "test") = toStr "val1")
    ∧ (HasError (Parse tReg emptyScan [toStr "prog", toStr "--test=val2"]) = false
      ∧ GetString (Parse tReg emptyScan [toStr "prog", toStr "--test=val2"]) (toStr "test") = toStr "val2")
    ∧ (HasError (Parse tReg emptyScan [toStr "prog", toStr "-t", toStr "val3"]) = false
      ∧ GetString (Parse tReg emptyScan [toStr "prog", toStr "-t", toStr "val3"]) (toStr "test") = toStr "val3")
    ∧ (HasError (Parse tReg emptyScan [toStr "prog", toStr "--test", toStr "val4"]) = false
      ∧ GetString (Parse tReg emptyScan [toStr "prog", toStr "--test", toStr "val4"]) (toStr "test") = toStr "val4")
    ∧ (HasError (Parse tReg emptyScan [toStr "prog", toStr "-tval5"]) = false
      ∧ GetString (Parse tReg emptyScan [toStr "prog", toStr "-tval5"]) (toStr "test") = toStr "val5") := by
  decide

/-! Combined-flag helpers (C3). -/

theorem multiKeysGo_all (reg : Registry) (s : List Char)
    (h : ∀ c ∈ s, (alistLookup reg.shortKeys [c]).isSome) :
    multiKeysGo reg s = some (s.map (fun c => [c])) := by
  induction s with
  | nil => simp [multiKeysGo]
  | cons c cs ih =>
    have hc := h c (List.mem_cons_self c cs)
    simp [multiKeysGo, hc, ih (fun x hx => h x (List.mem_cons_of_mem c hx))]

theorem multiKeysGo_not_all (reg : Registry) (s : List Char)
    (h : ¬ ∀ c ∈ s, (alistLookup reg.shortKeys [c]).isSome) :
    multiKeysGo reg s = none := by
  induction s with
  | nil => exact absurd (by simp) h
  | cons c cs ih =>
    by_cases hc : (alistLookup reg.shortKeys [c]).isSome
    · have hcs : ¬ ∀ x ∈ cs, (alistLookup reg.shortKeys [x]).isSome := by
        intro hall
        apply h
        intro x hx
        rcases List.mem_cons.mp hx with rfl | hx2
        · exact hc
        · exact hall x hx2
      simp [multiKeysGo, hc, ih hcs]
    · simp [multiKeysGo, hc]

theorem multiOptFirstPassErr_none (reg : Registry) (ks : List Str)
    (hres : ∀ k ∈ ks, (alistLookup reg.shortKeys k).isSome)
    (hall : ∀ k ∈ ks, ∀ o, alistLookup reg.shortKeys k = some o → o.isBool = true) :
    multiOptFirstPassErr reg ks = none := by
  induction ks with
  | nil => simp [multiOptFirstPassErr]
  | cons k rest ih =>
    obtain ⟨o, ho⟩ := Option.isSome_iff_exists.mp (hres k (List.mem_cons_self k rest))
    have hb := hall k (List.mem_cons_self k rest) o ho
    simp only [multiOptFirstPassErr, ho, hb, if_true]
    exact ih (fun x hx => hres x (List.mem_cons_of_mem k hx))
      (fun x hx => hall x (List.mem_cons_of_mem k hx))

theorem multiOptFirstPassErr_some (reg : Registry) (ks : List Str)
    (hres : ∀ k ∈ ks, (alistLookup reg.shortKeys k).isSome)
    (hex : ∃ k ∈ ks, ∃ o, alistLookup reg.shortKeys k = some o ∧ o.isBool = false) :
    ∃ k o, k ∈ ks ∧ alistLookup reg.shortKeys k = some o ∧ o.isBool = false ∧
      multiOptFirstPassErr reg ks = some (ERR_NONBOOL_MULTI ++ k) := by
  induction ks with
  | nil => simp at hex
  | cons k rest ih =>
    obtain ⟨o, ho⟩ := Option.isSome_iff_exists.mp (hres k (List.mem_cons_self k rest))
    by_cases hb : o.isBool = true
    · have hex2 : ∃ x ∈ rest, ∃ o2, alistLookup reg.shortKeys x = some o2 ∧ o2.isBool = false := by
        obtain ⟨x, hx, o2, ho2, hb2⟩ := hex
        rcases List.mem_cons.mp hx with rfl | hx2
        · rw [ho] at ho2
          injection ho2 with he
          rw [he] at hb
          rw [hb] at hb2
          exact absurd hb2 (by simp)
        · exact ⟨x, hx2, o2, ho2, hb2⟩
      obtain ⟨k2, o2, hk2, ho2, hb2, hfp⟩ :=
        ih (fun x hx => hres x (List.mem_cons_of_mem k hx)) hex2
      exact ⟨k2, o2, List.mem_cons_of_mem k hk2, ho2, hb2, by
        simp only [multiOptFirstPassErr, ho, hb, if_true]
        exact hfp⟩
    · have hb' : o.isBool = false := by
        revert hb; cases o.isBool <;> simp
      exact ⟨k, o, List.mem_cons_self k rest, ho, hb', by
        simp [multiOptFirstPassErr, ho, hb']⟩

theorem multiOptSecondPass_pres (reg : Registry) (ks : List Str) :
    ∀ bv x, alistLookup bv x = some true →
      alistLookup (multiOptSecondPass reg bv ks) x = some true := by
  induction ks with
  | nil => intro bv x h; simpa [multiOptSecondPass] using h
  | cons k rest ih =>
    intro bv x h
    cases ho : alistLookup reg.shortKeys k with
    | none =>
      simp only [multiOptSecondPass, ho]
      exact ih bv x h
    | some o =>
      simp only [multiOptSecondPass, ho]
      apply ih
      rw [alistLookup_insert]
      by_cases hx : x = o.key
      · simp [hx]
      · simp [hx, h]

theorem multiOptSecondPass_mem (reg : Registry) (ks : List Str) :
    ∀ bv k o, k ∈ ks → alistLookup reg.shortKeys k = some o →
      alistLookup (multiOptSecondPass reg bv ks) o.key = some true := by
  induction ks with
  | nil => intro bv k o hk _; exact absurd hk (List.not_mem_nil k)
  | cons k0 rest ih =>
    intro bv k o hk ho
    rcases List.mem_cons.mp hk with rfl | hk2
    · simp only [multiOptSecondPass, ho]
      exact multiOptSecondPass_pres reg rest _ _ (by rw [alistLookup_insert]; simp)
    · cases ho0 : alistLookup reg.shortKeys k0 with
      | none =>
        simp only [multiOptSecondPass, ho0]
        exact ih bv k o hk2 ho
      | some o0 =>
        simp only [multiOptSecondPass, ho0]
        exact ih _ k o hk2 ho

/-- C3: for a short token whose dash-stripped remainder is longer than one
character: when every character resolves to a registered short option, any
non-boolean among them halts the scan with CombinedNonBoolean naming an
offending key, and otherwise every one of them is marked present; when not
every character resolves, the smushed-value reading applies to the first
character — unregistered halts with UnknownOption, boolean halts with
BooleanWithValue, and a registered non-boolean binds the remaining
characters verbatim, marked found if required. -/
theorem c3_combined_or_smushed (reg : Registry) (arg : Str) (rest : List Str)
    (st : ScanSt) (fr : List (Str × Bool))
    (h1 : (matchSingleDashEquals arg || matchMultiDashEquals arg) = false)
    (h2 : matchMultiDash arg = false)
    (h3 : matchSingleDash arg = true)
    (h4 : 1 < (stripDashes arg).length) :
    ((∀ c ∈ stripDashes arg, (alistLookup reg.shortKeys [c]).isSome) →
      ((∃ c ∈ stripDashes arg, ∃ o, alistLookup reg.shortKeys [c] = some o ∧ o.isBool = false) →
        ∃ k o, k ∈ (stripDashes arg).map (fun c => ([c] : Str)) ∧
          alistLookup reg.shortKeys k = some o ∧ o.isBool = false ∧
          parseStep reg arg rest st fr = .halt (ERR_NONBOOL_MULTI ++ k))
      ∧ ((∀ c ∈ stripDashes arg, ∀ o, alistLookup reg.shortKeys [c] = some o → o.isBool = true) →
        parseStep reg arg rest st fr =
          .cont { st with boolVals :=
              multiOptSecondPass reg st.boolVals ((stripDashes arg).map (fun c => ([c] : Str))) } fr
        ∧ ∀ c ∈ stripDashes arg, ∀ o, alistLookup reg.shortKeys [c] = some o →
            alistLookup (multiOptSecondPass reg st.boolVals
              ((stripDashes arg).map (fun c => ([c] : Str)))) o.key = some true))
    ∧ ((¬ ∀ c ∈ stripDashes arg, (alistLookup reg.shortKeys [c]).isSome) →
      ∃ c0 cs, stripDashes arg = c0 :: cs ∧
        (alistLookup reg.shortKeys [c0] = none →
          parseStep reg arg rest st fr = .halt (ERR_NO_OPT ++ [c0]))
        ∧ (∀ o, alistLookup reg.shortKeys [c0] = some o → o.isBool = true →
          parseStep reg arg rest st fr = .halt (ERR_BOOL_WITH_VAL ++ arg))
        ∧ (∀ o, alistLookup reg.shortKeys [c0] = some o → o.isBool = false →
          parseStep reg arg rest st fr =
            .cont { st with stringVals := alistInsert st.stringVals o.key cs }
              (if o.required then alistInsert fr o.key true else fr))) := by
  have hne1 : ¬((stripDashes arg).length = 1) := by omega
  constructor
  · intro hres
    have hks : getMultiOptKeys reg arg = some ((stripDashes arg).map (fun c => [c])) := by
      simp [getMultiOptKeys, multiKeysGo_all reg _ hres]
    have hres2 : ∀ k ∈ (stripDashes arg).map (fun c => ([c] : Str)),
        (alistLookup reg.shortKeys k).isSome := by
      intro k hk
      obtain ⟨c, hc, rfl⟩ := List.mem_map.mp hk
      exact hres c hc
    constructor
    · intro hex
      have hex2 : ∃ k ∈ (stripDashes arg).map (fun c => ([c] : Str)),
          ∃ o, alistLookup reg.shortKeys k = some o ∧ o.isBool = false := by
        obtain ⟨c, hc, o, ho, hb⟩ := hex
        exact ⟨[c], List.mem_map_of_mem _ hc, o, ho, hb⟩
      obtain ⟨k, o, hk, ho, hb, hfp⟩ := multiOptFirstPassErr_some reg _ hres2 hex2
      refine ⟨k, o, hk, ho, hb, ?_⟩
      simp [parseStep, h1, h2, h3, hne1, hks, hfp]
    · intro hall
      have hall2 : ∀ k ∈ (stripDashes arg).map (fun c => ([c] : Str)),
          ∀ o, alistLookup reg.shortKeys k = some o → o.isBool = true := by
        intro k hk o ho
        obtain ⟨c, hc, rfl⟩ := List.mem_map.mp hk
        exact hall c hc o ho
      have hfp := multiOptFirstPassErr_none reg _ hres2 hall2
      refine ⟨by simp [parseStep, h1, h2, h3, hne1, hks, hfp], ?_⟩
      intro c hc o ho
      exact multiOptSecondPass_mem reg _ st.boolVals [c] o (List.mem_map_of_mem _ hc) ho
  · intro hnot
    have hmk : getMultiOptKeys reg arg = none := by
      simp [getMultiOptKeys, multiKeysGo_not_all reg _ hnot]
    rcases hsa : stripDashes arg with _ | ⟨c0, cs⟩
    · rw [hsa] at h4; simp at h4
    · have hcs : cs ≠ [] := by
        rw [hsa] at h4
        simp only [List.length_cons] at h4
        exact List.ne_nil_of_length_pos (by omega)
      refine ⟨c0, cs, rfl, ?_, ?_, ?_⟩
      · intro hnone
        simp [parseStep, h1, h2, h3, hsa, hcs, hmk, hnone]
      · intro o ho hb
        simp [parseStep, h1, h2, h3, hsa, hcs, hmk, ho, hb]
      · intro o ho hb
        simp [parseStep, h1, h2, h3, hsa, hcs, hmk, ho, hb]

theorem c3_combined_or_smushed_w :
    ∃ k o, k ∈ (stripDashes (toStr "-af")).map (fun c => ([c] : Str)) ∧
      alistLookup abfReg.shortKeys k = some o ∧ o.isBool = false ∧
      parseStep abfReg (toStr "-af") [] emptyScan [] = .halt (ERR_NONBOOL_MULTI ++ k) :=
  ((c3_combined_or_smushed abfReg (toStr "-af") [] emptyScan []
      (by decide) (by decide) (by decide) (by decide)).1 (by decide)).1
    ⟨'f', by decide, fOpt, by decide, by decide⟩

/-! Lookahead consumption (C4). -/

/-- C4 as stated fails on the code: with the non-boolean short option `f`
registered, after `-f` the following token exists and is the empty string —
which is not recognizable as any dash-prefixed option form — yet it is not
consumed as the value: the scan fails with MissingValue and binds nothing. -/
theorem c4_counterexample :
    isOptForm [] = false
    ∧ (Parse fReg emptyScan [toStr "prog", toStr "-f", []]).parseError
        = ERR_MISSING_VAL ++ toStr "-f"
    ∧ GetString (Parse fReg emptyScan [toStr "prog", toStr "-f", []]) (toStr "f") = []
    ∧ GetArgs (Parse fReg emptyScan [toStr "prog", toStr "-f", []]) = [] := by
  decide

/-- C4 (amended): for a registered non-boolean option given as a bare long or
bare single-character short token, the immediately following token is consumed
as the value exactly when it exists, is non-empty, and matches none of the
dash-prefixed option-form classifiers; otherwise the scan halts with
MissingValue.  When a value is consumed, the loop continues past it, so the
consumed token is never reprocessed. -/
theorem c4_lookahead_consumption (reg : Registry) (arg : Str) (o : Opt)
    (st : ScanSt) (fr : List (Str × Bool)) (hbool : o.isBool = false) :
    ((matchSingleDashEquals arg || matchMultiDashEquals arg) = false →
      matchMultiDash arg = true →
      alistLookup reg.longKeys (stripDashes arg) = some o →
      parseStep reg arg [] st fr = .halt (ERR_MISSING_VAL ++ arg)
      ∧ (∀ next rest', (isOptForm next = true ∨ next = []) →
          parseStep reg arg (next :: rest') st fr = .halt (ERR_MISSING_VAL ++ arg))
      ∧ (∀ next rest', isOptForm next = false → next ≠ [] →
          parseStep reg arg (next :: rest') st fr =
            .cont2 { st with stringVals := alistInsert st.stringVals o.key next }
              (if o.required then alistInsert fr o.key true else fr)
          ∧ parseLoop reg (arg :: next :: rest') st fr =
              parseLoop reg rest'
                { st with stringVals := alistInsert st.stringVals o.key next }
                (if o.required then alistInsert fr o.key true else fr)))
    ∧ ((matchSingleDashEquals arg || matchMultiDashEquals arg) = false →
      matchMultiDash arg = false →
      matchSingleDash arg = true →
      (stripDashes arg).length = 1 →
      alistLookup reg.shortKeys (stripDashes arg) = some o →
      parseStep reg arg [] st fr = .halt (ERR_MISSING_VAL ++ arg)
      ∧ (∀ next rest', (isOptForm next = true ∨ next = []) →
          parseStep reg arg (next :: rest') st fr = .halt (ERR_MISSING_VAL ++ arg))
      ∧ (∀ next rest', isOptForm next = false → next ≠ [] →
          parseStep reg arg (next :: rest') st fr =
            .cont2 { st with stringVals := alistInsert st.stringVals o.key next }
              (if o.required then alistInsert fr o.key true else fr)
          ∧ parseLoop reg (arg :: next :: rest') st fr =
              parseLoop reg rest'
                { st with stringVals := alistInsert st.stringVals o.key next }
                (if o.required then alistInsert fr o.key true else fr))) := by
  constructor
  · intro h1 h2 hl
    refine ⟨by simp [parseStep, h1, h2, hl, hbool, lookaheadForVal], ?_, ?_⟩
    · intro next rest' hcase
      rcases hcase with hopt | hnil
      · have hv : lookaheadForVal (next :: rest') = [] := by
          simp only [isOptForm] at hopt
          simp [lookaheadForVal, hopt]
        simp [parseStep, h1, h2, hl, hbool, hv]
      · subst hnil
        simp [parseStep, h1, h2, hl, hbool, lookaheadForVal]
    · intro next rest' hopt hne
      obtain ⟨g1, g2, g3, g4⟩ := isOptForm_false_parts next hopt
      have hv : lookaheadForVal (next :: rest') = next := by
        simp [lookaheadForVal, g1, g2, g3, g4]
      have hstep : parseStep reg arg (next :: rest') st fr =
          .cont2 { st with stringVals := alistInsert st.stringVals o.key next }
            (if o.required then alistInsert fr o.key true else fr) := by
        simp [parseStep, h1, h2, hl, hbool, hv, hne]
      exact ⟨hstep, by simp only [parseLoop, hstep]⟩
  · intro h1 h2 h3 hlen hl
    refine ⟨by simp [parseStep, h1, h2, h3, hlen, hl, hbool, lookaheadForVal], ?_, ?_⟩
    · intro next rest' hcase
      rcases hcase with hopt | hnil
      · have hv : lookaheadForVal (next :: rest') = [] := by
          simp only [isOptForm] at hopt
          simp [lookaheadForVal, hopt]
        simp [parseStep, h1, h2, h3, hlen, hl, hbool, hv]
      · subst hnil
        simp [parseStep, h1, h2, h3, hlen, hl, hbool, lookaheadForVal]
    · intro next rest' hopt hne
      obtain ⟨g1, g2, g3, g4⟩ := isOptForm_false_parts next hopt
      have hv : lookaheadForVal (next :: rest') = next := by
        simp [lookaheadForVal, g1, g2, g3, g4]
      have hstep : parseStep reg arg (next :: rest') st fr =
          .cont2 { st with stringVals := alistInsert st.stringVals o.key next }
            (if o.required then alistInsert fr o.key true else fr) := by
        simp [parseStep, h1, h2, h3, hlen, hl, hbool, hv, hne]
      exact ⟨hstep, by simp only [parseLoop, hstep]⟩

theorem c4_lookahead_consumption_w :
    parseStep xxReg (toStr "--xx") (toStr "v" :: []) emptyScan []
      = .cont2 { emptyScan with stringVals := alistInsert emptyScan.stringVals xxOpt.key (toStr "v") }
          (if xxOpt.required then alistInsert [] xxOpt.key true else [])
    ∧ parseLoop xxReg (toStr "--xx" :: toStr "v" :: []) emptyScan []
      = parseLoop xxReg []
          { emptyScan with stringVals := alistInsert emptyScan.stringVals xxOpt.key (toStr "v") }
          (if xxOpt.required then alistInsert [] xxOpt.key true else []) :=
  ((c4_lookahead_consumption xxReg (toStr "--xx") xxOpt emptyScan [] (by decide)).1
      (by decide) (by decide) (by decide)).2.2 (toStr "v") [] (by decide) (by decide)

/-! Fail-fast machinery (C6). -/

theorem boolNotTrue {b : Bool} (h : ¬(b = true)) : b = false := by
  cases b with
  | false => rfl
  | true => exact absurd rfl h

theorem lookaheadForVal_take (rest : List Str) :
    lookaheadForVal (rest.take 1) = lookaheadForVal rest := by
  cases rest <;> rfl

theorem getValForEqualsSignArg_error_ne (reg : Registry) (arg e : Str)
    (h : getValForEqualsSignArg reg arg = .error e) : e ≠ [] := by
  unfold getValForEqualsSignArg eqArgFinish at h
  repeat' split at h
  all_goals first
    | exact Except.noConfusion h
    | (injection h with he; subst he; decide)
    | (injection h with he; subst he; exact ne_nil_append (by decide))

theorem multiOptFirstPassErr_some_ne (reg : Registry) (ks : List Str) :
    ∀ e, multiOptFirstPassErr reg ks = some e → e ≠ [] := by
  induction ks with
  | nil => intro e h; simp [multiOptFirstPassErr] at h
  | cons k rest ih =>
    intro e h
    unfold multiOptFirstPassErr at h
    split at h
    · injection h with he; subst he; decide
    · split at h
      · exact ih e h
      · injection h with he; subst he; exact ne_nil_append (by decide)

/-- Each loop iteration either halts with a non-empty error whose
determination inspects at most the immediately following token, continues
having consumed one token with a successor state independent of the tail, or
continues having consumed the following token as well, with a successor state
depending only on that token. -/
theorem parseStep_cases (reg : Registry) (arg : Str) (rest : List Str)
    (st : ScanSt) (fr : List (Str × Bool)) :
    (∃ e, e ≠ [] ∧ parseStep reg arg rest st fr = .halt e ∧
        parseStep reg arg (rest.take 1) st fr = .halt e)
    ∨ (∃ st₂ fr₂, ∀ tail, parseStep reg arg tail st fr = .cont st₂ fr₂)
    ∨ (∃ next rest₂ st₂ fr₂, rest = next :: rest₂ ∧
        ∀ tail, parseStep reg arg (next :: tail) st fr = .cont2 st₂ fr₂) := by
  by_cases hEq : (matchSingleDashEquals arg || matchMultiDashEquals arg) = true
  · cases hg : getValForEqualsSignArg reg arg with
    | error e =>
      exact Or.inl ⟨e, getValForEqualsSignArg_error_ne reg arg e hg,
        by simp [parseStep, hEq, hg], by simp [parseStep, hEq, hg]⟩
    | ok kv =>
      obtain ⟨key, val⟩ := kv
      exact Or.inr (Or.inl ⟨{ st with stringVals := alistInsert st.stringVals key val },
        markFoundViaOpts reg fr key, fun tail => by simp [parseStep, hEq, hg]⟩)
  · have hEq' := boolNotTrue hEq
    by_cases hMd : matchMultiDash arg = true
    · cases hlk : alistLookup reg.longKeys (stripDashes arg) with
      | none =>
        exact Or.inl ⟨ERR_NO_OPT ++ arg, ne_nil_append (by decide),
          by simp [parseStep, hEq', hMd, hlk], by simp [parseStep, hEq', hMd, hlk]⟩
      | some o =>
        by_cases hb : o.isBool = true
        · exact Or.inr (Or.inl ⟨{ st with boolVals := alistInsert st.boolVals o.key true },
            fr, fun tail => by simp [parseStep, hEq', hMd, hlk, hb]⟩)
        · have hb' := boolNotTrue hb
          by_cases hval : lookaheadForVal rest = []
          · refine Or.inl ⟨ERR_MISSING_VAL ++ arg, ne_nil_append (by decide),
              by simp [parseStep, hEq', hMd, hlk, hb', hval], ?_⟩
            have ht : lookaheadForVal (rest.take 1) = [] := by
              rw [lookaheadForVal_take]; exact hval
            simp [parseStep, hEq', hMd, hlk, hb', ht]
          · cases rest with
            | nil => exact absurd rfl hval
            | cons next rest₂ =>
              refine Or.inr (Or.inr ⟨next, rest₂,
                { st with stringVals :=
                    alistInsert st.stringVals o.key (lookaheadForVal (next :: rest₂)) },
                (if o.required then alistInsert fr o.key true else fr), rfl, fun tail => ?_⟩)
              have hval2 : lookaheadForVal (next :: tail) = lookaheadForVal (next :: rest₂) := rfl
              have hvalne : ¬(lookaheadForVal (next :: tail) = []) := by
                rw [hval2]; exact hval
              simp [parseStep, hEq', hMd, hlk, hb', hvalne, hval2]
              exact hval
    · have hMd' := boolNotTrue hMd
      by_cases hSd : matchSingleDash arg = true
      · by_cases hlen : (stripDashes arg).length = 1
        · cases hlk : alistLookup reg.shortKeys (stripDashes arg) with
          | none =>
            exact Or.inl ⟨ERR_NO_OPT ++ arg, ne_nil_append (by decide),
              by simp [parseStep, hEq', hMd', hSd, hlen, hlk],
              by simp [parseStep, hEq', hMd', hSd, hlen, hlk]⟩
          | some o =>
            by_cases hb : o.isBool = true
            · exact Or.inr (Or.inl ⟨{ st with boolVals := alistInsert st.boolVals o.key true },
                fr, fun tail => by simp [parseStep, hEq', hMd', hSd, hlen, hlk, hb]⟩)
            · have hb' := boolNotTrue hb
              by_cases hval : lookaheadForVal rest = []
              · refine Or.inl ⟨ERR_MISSING_VAL ++ arg, ne_nil_append (by decide),
                  by simp [parseStep, hEq', hMd', hSd, hlen, hlk, hb', hval], ?_⟩
                have ht : lookaheadForVal (rest.take 1) = [] := by
                  rw [lookaheadForVal_take]; exact hval
                simp [parseStep, hEq', hMd', hSd, hlen, hlk, hb', ht]
              · cases rest with
                | nil => exact absurd rfl hval
                | cons next rest₂ =>
                  refine Or.inr (Or.inr ⟨next, rest₂,
                    { st with stringVals :=
                        alistInsert st.stringVals o.key (lookaheadForVal (next :: rest₂)) },
                    (if o.required then alistInsert fr o.key true else fr), rfl, fun tail => ?_⟩)
                  have hval2 : lookaheadForVal (next :: tail) = lookaheadForVal (next :: rest₂) := rfl
                  have hvalne : ¬(lookaheadForVal (next :: tail) = []) := by
                    rw [hval2]; exact hval
                  simp [parseStep, hEq', hMd', hSd, hlen, hlk, hb', hvalne, hval2]
                  exact hval
        · cases hmk : getMultiOptKeys reg arg with
          | some ks =>
            cases hfp : multiOptFirstPassErr reg ks with
            | some e =>
              exact Or.inl ⟨e, multiOptFirstPassErr_some_ne reg ks e hfp,
                by simp [parseStep, hEq', hMd', hSd, hlen, hmk, hfp],
                by simp [parseStep, hEq', hMd', hSd, hlen, hmk, hfp]⟩
            | none =>
              exact Or.inr (Or.inl ⟨{ st with
                  boolVals := multiOptSecondPass reg st.boolVals ks }, fr,
                fun tail => by simp [parseStep, hEq', hMd', hSd, hlen, hmk, hfp]⟩)
          | none =>
            cases hsa : stripDashes arg with
            | nil =>
              exact Or.inl ⟨NIL_PANIC, by decide,
                by simp [parseStep, hEq', hMd', hSd, hlen, hmk, hsa],
                by simp [parseStep, hEq', hMd', hSd, hlen, hmk, hsa]⟩
            | cons c0 cs =>
              have hlen2 : ¬(cs = []) := by
                intro hnil
                rw [hsa, hnil] at hlen
                exact hlen rfl
              cases hlk : alistLookup reg.shortKeys [c0] with
              | none =>
                exact Or.inl ⟨ERR_NO_OPT ++ [c0], ne_nil_append (by decide),
                  by simp [parseStep, hEq', hMd', hSd, hsa, hlen2, hmk, hlk],
                  by simp [parseStep, hEq', hMd', hSd, hsa, hlen2, hmk, hlk]⟩
              | some o =>
                by_cases hb : o.isBool = true
                · exact Or.inl ⟨ERR_BOOL_WITH_VAL ++ arg, ne_nil_append (by decide),
                    by simp [parseStep, hEq', hMd', hSd, hsa, hlen2, hmk, hlk, hb],
                    by simp [parseStep, hEq', hMd', hSd, hsa, hlen2, hmk, hlk, hb]⟩
                · have hb' := boolNotTrue hb
                  exact Or.inr (Or.inl ⟨{ st with
                      stringVals := alistInsert st.stringVals o.key cs },
                    (if o.required then alistInsert fr o.key true else fr),
                    fun tail => by simp [parseStep, hEq', hMd', hSd, hsa, hlen2, hmk, hlk, hb']⟩)
      · have hSd' := boolNotTrue hSd
        exact Or.inr (Or.inl ⟨{ st with extraArgs := st.extraArgs ++ [arg] }, fr,
          fun tail => by simp [parseStep, hEq', hMd', hSd']⟩)

/-- C6: an aborted scan decomposes as a cleanly processed prefix followed by a
single failing step: the recorded error is exactly the one produced at the
first failing token, that step inspects at most the immediately following
token, and the bound booleans, strings and positionals of the final state are
exactly those produced by the tokens strictly before the failing one. -/
theorem c6_fail_fast (reg : Registry) :
    ∀ tokens st fr st' fr', parseLoop reg tokens st fr = (st', fr', true) →
      ∃ pre t suf st₁ fr₁ e,
        tokens = pre ++ t :: suf
        ∧ parseLoop reg pre st fr = (st₁, fr₁, false)
        ∧ parseStep reg t suf st₁ fr₁ = .halt e
        ∧ e ≠ []
        ∧ st' = { st₁ with parseError := e }
        ∧ fr' = fr₁
        ∧ parseStep reg t (suf.take 1) st₁ fr₁ = .halt e := by
  suffices H : ∀ n tokens, tokens.length ≤ n → ∀ st fr st' fr',
      parseLoop reg tokens st fr = (st', fr', true) →
      ∃ pre t suf st₁ fr₁ e,
        tokens = pre ++ t :: suf
        ∧ parseLoop reg pre st fr = (st₁, fr₁, false)
        ∧ parseStep reg t suf st₁ fr₁ = .halt e
        ∧ e ≠ []
        ∧ st' = { st₁ with parseError := e }
        ∧ fr' = fr₁
        ∧ parseStep reg t (suf.take 1) st₁ fr₁ = .halt e by
    intro tokens
    exact H tokens.length tokens (le_refl _)
  intro n
  induction n with
  | zero =>
    intro tokens hlen st fr st' fr' h
    have hnil : tokens = [] := List.eq_nil_of_length_eq_zero (Nat.le_zero.mp hlen)
    subst hnil
    simp [parseLoop] at h
  | succ n ih =>
    intro tokens hlen st fr st' fr' h
    cases tokens with
    | nil => simp [parseLoop] at h
    | cons arg rest =>
      rcases parseStep_cases reg arg rest st fr with
        ⟨e, hne, hstep, hstep1⟩ | ⟨st₂, fr₂, hstep⟩ | ⟨next, rest₂, st₂, fr₂, hrest, hstep⟩
      · have hub : parseLoop reg (arg :: rest) st fr = ({ st with parseError := e }, fr, true) := by
          simp only [parseLoop, hstep]
        rw [hub] at h
        injection h with hA hBC
        injection hBC with hB hC
        exact ⟨[], arg, rest, st, fr, e, rfl, by simp [parseLoop], hstep, hne,
          hA.symm, hB.symm, hstep1⟩
      · have hub : parseLoop reg (arg :: rest) st fr = parseLoop reg rest st₂ fr₂ := by
          simp only [parseLoop, hstep rest]
        rw [hub] at h
        have hlen2 : rest.length ≤ n := by
          simp only [List.length_cons] at hlen; omega
        obtain ⟨pre, t, suf, st₁, fr₁, e, hsplit, hpre, hs1, hne, hst, hfr, hs2⟩ :=
          ih rest hlen2 st₂ fr₂ st' fr' h
        refine ⟨arg :: pre, t, suf, st₁, fr₁, e, by rw [hsplit]; rfl, ?_, hs1, hne, hst, hfr, hs2⟩
        have hlift : parseLoop reg (arg :: pre) st fr = parseLoop reg pre st₂ fr₂ := by
          simp only [parseLoop, hstep pre]
        rw [hlift, hpre]
      · subst hrest
        have hub : parseLoop reg (arg :: next :: rest₂) st fr = parseLoop reg rest₂ st₂ fr₂ := by
          simp only [parseLoop, hstep rest₂]
        rw [hub] at h
        have hlen2 : rest₂.length ≤ n := by
          simp only [List.length_cons] at hlen; omega
        obtain ⟨pre, t, suf, st₁, fr₁, e, hsplit, hpre, hs1, hne, hst, hfr, hs2⟩ :=
          ih rest₂ hlen2 st₂ fr₂ st' fr' h
        refine ⟨arg :: next :: pre, t, suf, st₁, fr₁, e, by rw [hsplit]; rfl, ?_, hs1, hne,
          hst, hfr, hs2⟩
        have hlift : parseLoop reg (arg :: next :: pre) st fr = parseLoop reg pre st₂ fr₂ := by
          simp only [parseLoop, hstep pre]
        rw [hlift, hpre]

theorem c6_fail_fast_w :
    ∃ pre t suf st₁ fr₁ e,
      ([toStr "-z"] : List Str) = pre ++ t :: suf
      ∧ parseLoop emptyRegistry pre emptyScan [] = (st₁, fr₁, false)
      ∧ parseStep emptyRegistry t suf st₁ fr₁ = .halt e
      ∧ e ≠ []
      ∧ ({ emptyScan with parseError := ERR_NO_OPT ++ toStr "-z" } : ScanSt)
          = { st₁ with parseError := e }
      ∧ ([] : List (Str × Bool)) = fr₁
      ∧ parseStep emptyRegistry t (suf.take 1) st₁ fr₁ = .halt e :=
  c6_fail_fast emptyRegistry [toStr "-z"] emptyScan []
    { emptyScan with parseError := ERR_NO_OPT ++ toStr "-z" } [] (by decide)

/-! Required-option enforcement (C7). -/

theorem getMissingReqOptsError_ne_iff (fr req : List (Str × Bool)) (opts : List (Str × Opt)) :
    getMissingReqOptsError fr req opts ≠ [] ↔
      ∃ k, (alistLookup req k).isSome ∧ alistLookup fr k = none := by
  constructor
  · intro hne
    unfold getMissingReqOptsError at hne
    by_cases hm : (missingKeysOf fr req).length > 0
    · obtain ⟨k, hk⟩ := List.exists_mem_of_length_pos hm
      unfold missingKeysOf at hk
      obtain ⟨hkmem, hknone⟩ := List.mem_filter.mp hk
      refine ⟨k, (alistLookup_isSome_iff req k).mpr hkmem, ?_⟩
      exact Option.isNone_iff_eq_none.mp (by simpa using hknone)
    · simp [hm] at hne
  · rintro ⟨k, hsome, hnone⟩
    have hkmem : k ∈ req.map Prod.fst := (alistLookup_isSome_iff req k).mp hsome
    have hmem2 : k ∈ missingKeysOf fr req := by
      unfold missingKeysOf
      exact List.mem_filter.mpr ⟨hkmem, by simp [hnone]⟩
    have hlen : 0 < (missingKeysOf fr req).length :=
      List.length_pos.mpr (List.ne_nil_of_mem hmem2)
    unfold getMissingReqOptsError
    simp only [hlen, if_true]
    exact ne_nil_append (by decide)

theorem getMissingReqOptsError_pref (fr req : List (Str × Bool)) (opts : List (Str × Opt))
    (hne : getMissingReqOptsError fr req opts ≠ []) :
    ERR_REQ <+: getMissingReqOptsError fr req opts := by
  unfold getMissingReqOptsError at hne ⊢
  by_cases hm : (missingKeysOf fr req).length > 0
  · simp only [hm, if_true]
    exact ⟨joinMissing opts (missingKeysOf fr req), rfl⟩
  · simp [hm] at hne

/-- C7: with at least one required option registered, a scan that runs to the
end of the token list without a token-level error (and likewise a scan of a
sequence shorter than two elements, which classifies no tokens) ends in a
MissingRequired error exactly when some required key was not marked found
during the pass; supplying the single required test option through any of the
five value forms marks it found, so each of those scans succeeds. -/
theorem c7_required_enforcement (reg : Registry) (hreq : reg.requiredOpts ≠ []) :
    (∀ args st0 st₁ fr₁, 2 ≤ args.length →
      parseLoop reg (args.drop 1) st0 [] = (st₁, fr₁, false) →
      ((Parse reg st0 args).parseError ≠ [] ↔
        ∃ k, (alistLookup reg.requiredOpts k).isSome ∧ alistLookup fr₁ k = none)
      ∧ ((Parse reg st0 args).parseError ≠ [] →
          ERR_REQ <+: (Parse reg st0 args).parseError))
    ∧ (∀ args st0, args.length < 2 →
        (Parse reg st0 args).parseError ≠ []
        ∧ ERR_REQ <+: (Parse reg st0 args).parseError)
    ∧ ((Parse tReqReg emptyScan [toStr "prog", toStr "-t=val1"]).parseError = []
      ∧ (Parse tReqReg emptyScan [toStr "prog", toStr "--test=val2"]).parseError = []
      ∧ (Parse tReqReg emptyScan [toStr "prog", toStr "-t", toStr "val3"]).parseError = []
      ∧ (Parse tReqReg emptyScan [toStr "prog", toStr "--test", toStr "val4"]).parseError = []
      ∧ (Parse tReqReg emptyScan [toStr "prog", toStr "-tval5"]).parseError = []) := by
  have hpos : 0 < reg.requiredOpts.length := List.length_pos.mpr hreq
  refine ⟨?_, ?_, by decide⟩
  · intro args st0 st₁ fr₁ h2 hloop
    have hlt : ¬(args.length < 2) := by omega
    have hloop2 : parseLoop reg args.tail st0 [] = (st₁, fr₁, false) := by
      rw [← List.drop_one]; exact hloop
    have hP : Parse reg st0 args =
        { st₁ with parseError := getMissingReqOptsError fr₁ reg.requiredOpts reg.opts } := by
      simp [Parse, hlt, hloop, hloop2, hpos]
    rw [hP]
    exact ⟨getMissingReqOptsError_ne_iff fr₁ reg.requiredOpts reg.opts,
      getMissingReqOptsError_pref fr₁ reg.requiredOpts reg.opts⟩
  · intro args st0 hlt
    have hP : Parse reg st0 args =
        { st0 with parseError := getMissingReqOptsError [] reg.requiredOpts reg.opts } := by
      simp [Parse, hlt, hpos]
    have hex : ∃ k, (alistLookup reg.requiredOpts k).isSome ∧
        alistLookup ([] : List (Str × Bool)) k = none := by
      rcases hr : reg.requiredOpts with _ | ⟨p, prest⟩
      · exact absurd hr hreq
      · obtain ⟨k0, v0⟩ := p
        exact ⟨k0, by simp [alistLookup], rfl⟩
    have hne := (getMissingReqOptsError_ne_iff [] reg.requiredOpts reg.opts).mpr hex
    rw [hP]
    exact ⟨hne, getMissingReqOptsError_pref [] reg.requiredOpts reg.opts hne⟩

theorem c7_required_enforcement_w :
    (Parse tReqReg emptyScan [toStr "prog"]).parseError ≠ []
    ∧ ERR_REQ <+: (Parse tReqReg emptyScan [toStr "prog"]).parseError :=
  (c7_required_enforcement tReqReg (by decide)).2.1 [toStr "prog"] emptyScan (by decide)

/-! Registry index consistency (C9): the insert side. -/

theorem registryInsert_eq (reg : Registry) (o : Opt) :
    registryInsert reg o =
      { opts := alistInsert reg.opts o.key o,
        shortKeys := if o.short ≠ [] then alistInsert reg.shortKeys o.short o else reg.shortKeys,
        longKeys := if o.long ≠ [] then alistInsert reg.longKeys o.long o else reg.longKeys,
        requiredOpts :=
          if o.required then alistInsert reg.requiredOpts o.key true else reg.requiredOpts } := by
  unfold registryInsert
  by_cases h1 : o.short ≠ [] <;> by_cases h2 : o.long ≠ [] <;>
    by_cases h3 : o.required = true <;> simp [h1, h2, h3]

theorem consistent_insert (reg : Registry) (o : Opt)
    (hc : consistentReg reg)
    (hKey : alistLookup reg.opts o.key = none)
    (hShort : o.short ≠ [] → alistLookup reg.shortKeys o.short = none)
    (hLong : o.long ≠ [] → alistLookup reg.longKeys o.long = none) :
    consistentReg (registryInsert reg o) := by
  obtain ⟨hcS, hcL, hcO, hcR⟩ := hc
  have hopts : ∀ o3 : Opt, alistLookup reg.opts o3.key = some o3 →
      alistLookup (alistInsert reg.opts o.key o) o3.key = some o3 := by
    intro o3 h3
    rw [alistLookup_insert]
    by_cases hk : o3.key = o.key
    · rw [hk] at h3; rw [h3] at hKey; exact Option.noConfusion hKey
    · simp [hk, h3]
  rw [registryInsert_eq]
  unfold consistentReg
  dsimp only
  refine ⟨?_, ?_, ?_, ?_⟩
  · intro s o2 hlk
    by_cases hs : o.short ≠ []
    · rw [if_pos hs, alistLookup_insert] at hlk
      by_cases hseq : s = o.short
      · rw [if_pos hseq] at hlk
        injection hlk with ho2
        subst ho2
        refine ⟨hseq.symm, by rw [hseq]; exact hs, by rw [alistLookup_insert]; simp⟩
      · rw [if_neg hseq] at hlk
        obtain ⟨h1, h2, h3⟩ := hcS s o2 hlk
        exact ⟨h1, h2, hopts o2 h3⟩
    · rw [if_neg hs] at hlk
      obtain ⟨h1, h2, h3⟩ := hcS s o2 hlk
      exact ⟨h1, h2, hopts o2 h3⟩
  · intro l o2 hlk
    by_cases hl : o.long ≠ []
    · rw [if_pos hl, alistLookup_insert] at hlk
      by_cases hleq : l = o.long
      · rw [if_pos hleq] at hlk
        injection hlk with ho2
        subst ho2
        refine ⟨hleq.symm, by rw [hleq]; exact hl, by rw [alistLookup_insert]; simp⟩
      · rw [if_neg hleq] at hlk
        obtain ⟨h1, h2, h3⟩ := hcL l o2 hlk
        exact ⟨h1, h2, hopts o2 h3⟩
    · rw [if_neg hl] at hlk
      obtain ⟨h1, h2, h3⟩ := hcL l o2 hlk
      exact ⟨h1, h2, hopts o2 h3⟩
  · intro k o2 hlk
    rw [alistLookup_insert] at hlk
    by_cases hk : k = o.key
    · rw [if_pos hk] at hlk
      injection hlk with ho2
      subst ho2
      refine ⟨hk.symm, ?_, ?_⟩
      · intro hsne
        rw [if_pos hsne, alistLookup_insert]
        simp
      · intro hlne
        rw [if_pos hlne, alistLookup_insert]
        simp
    · rw [if_neg hk] at hlk
      obtain ⟨h1, h2, h3⟩ := hcO k o2 hlk
      refine ⟨h1, ?_, ?_⟩
      · intro hsne
        have hold := h2 hsne
        by_cases hs : o.short ≠ []
        · rw [if_pos hs, alistLookup_insert]
          by_cases hseq : o2.short = o.short
          · rw [hseq, hShort hs] at hold
            exact Option.noConfusion hold
          · rw [if_neg hseq]
            exact hold
        · rw [if_neg hs]
          exact hold
      · intro hlne
        have hold := h3 hlne
        by_cases hl : o.long ≠ []
        · rw [if_pos hl, alistLookup_insert]
          by_cases hleq : o2.long = o.long
          · rw [hleq, hLong hl] at hold
            exact Option.noConfusion hold
          · rw [if_neg hleq]
            exact hold
        · rw [if_neg hl]
          exact hold
  · intro k
    by_cases hk : k = o.key
    · subst hk
      have hself : alistLookup (alistInsert reg.opts o.key o) o.key = some o := by
        rw [alistLookup_insert]; simp
      by_cases hr : o.required = true
      · rw [if_pos hr]
        constructor
        · intro _
          exact ⟨o, hself, hr⟩
        · intro _
          rw [alistLookup_insert]
          simp
      · rw [if_neg hr]
        constructor
        · intro hsome
          obtain ⟨o2, h2, _⟩ := (hcR o.key).mp hsome
          rw [hKey] at h2
          exact Option.noConfusion h2
        · rintro ⟨o2, h2, hreq2⟩
          rw [hself] at h2
          injection h2 with ho2
          rw [← ho2] at hreq2
          exact absurd hreq2 hr
    · have hreq2 : alistLookup
          (if o.required then alistInsert reg.requiredOpts o.key true else reg.requiredOpts) k
            = alistLookup reg.requiredOpts k := by
        by_cases hr : o.required = true
        · rw [if_pos hr, alistLookup_insert, if_neg hk]
        · rw [if_neg hr]
      have hopts2 : alistLookup (alistInsert reg.opts o.key o) k = alistLookup reg.opts k := by
        rw [alistLookup_insert, if_neg hk]
      rw [hreq2, hopts2]
      exact hcR k

/-- A registration call either leaves the registry unchanged (any validation
error), or the three duplicate checks passed and the registry becomes the
full insertion. -/
theorem RegisterOpt_snd_cases (reg : Registry) (key long short : Str) (b r : Bool) (u : Str) :
    (RegisterOpt reg key long short b r u).2 = reg
    ∨ ((RegisterOpt reg key long short b r u).2
          = registryInsert reg (mkOpt key long short b r u)
        ∧ alistLookup reg.opts (mkOpt key long short b r u).key = none
        ∧ ((mkOpt key long short b r u).short ≠ [] →
            alistLookup reg.shortKeys (mkOpt key long short b r u).short = none)
        ∧ ((mkOpt key long short b r u).long ≠ [] →
            alistLookup reg.longKeys (mkOpt key long short b r u).long = none)) := by
  simp only [RegisterOpt]
  repeat' split
  all_goals try (left; rfl)
  right
  rename_i hbr hnk hstl hlts hdk hds hdl
  refine ⟨rfl, ?_, ?_, ?_⟩
  · exact Option.not_isSome_iff_eq_none.mp hdk
  · intro hsne
    exact Option.not_isSome_iff_eq_none.mp (fun hs => hds ⟨hsne, hs⟩)
  · intro hlne
    exact Option.not_isSome_iff_eq_none.mp (fun hl => hdl ⟨hlne, hl⟩)

theorem RegisterOpt_consistent (reg : Registry) (key long short : Str) (b r : Bool) (u : Str)
    (hc : consistentReg reg) :
    consistentReg (RegisterOpt reg key long short b r u).2 := by
  rcases RegisterOpt_snd_cases reg key long short b r u with h | ⟨heq, hKey, hShort, hLong⟩
  · rw [h]; exact hc
  · rw [heq]
    exact consistent_insert reg _ hc hKey hShort hLong

/-! Registry index consistency (C9): the erase side. -/

theorem Clear_none (reg : Registry) (st : ScanSt) (key : Str)
    (h : alistLookup reg.opts key = none) : Clear reg st key = (reg, st) := by
  simp [Clear, h]

theorem Clear_some_fst (reg : Registry) (st : ScanSt) (key : Str) (opt : Opt)
    (h : alistLookup reg.opts key = some opt) :
    (Clear reg st key).1 =
      { opts := alistErase reg.opts key,
        shortKeys := if opt.short ≠ [] then alistErase reg.shortKeys opt.short else reg.shortKeys,
        longKeys := if opt.long ≠ [] then alistErase reg.longKeys opt.long else reg.longKeys,
        requiredOpts :=
          if opt.required then alistErase reg.requiredOpts opt.key else reg.requiredOpts } := by
  unfold Clear
  rw [h]
  by_cases h1 : opt.short ≠ [] <;> by_cases h2 : opt.long ≠ [] <;>
    by_cases h3 : opt.required = true <;> simp [h1, h2, h3]

theorem consistent_erase (reg : Registry) (st : ScanSt) (key : Str)
    (hc : consistentReg reg) : consistentReg (Clear reg st key).1 := by
  cases hlk : alistLookup reg.opts key with
  | none => rw [Clear_none reg st key hlk]; exact hc
  | some opt =>
    obtain ⟨hcS, hcL, hcO, hcR⟩ := hc
    have hkey : opt.key = key := (hcO key opt hlk).1
    rw [Clear_some_fst reg st key opt hlk]
    unfold consistentReg
    dsimp only
    refine ⟨?_, ?_, ?_, ?_⟩
    · intro s o2 hlk2
      have hsneOpt : opt.short ≠ [] → s ≠ opt.short := by
        intro hs
        have h := hlk2
        rw [if_pos hs, alistLookup_erase] at h
        by_cases hseq : s = opt.short
        · rw [if_pos hseq] at h; exact Option.noConfusion h
        · exact hseq
      have hold : alistLookup reg.shortKeys s = some o2 := by
        by_cases hs : opt.short ≠ []
        · rw [if_pos hs, alistLookup_erase, if_neg (hsneOpt hs)] at hlk2
          exact hlk2
        · rw [if_neg hs] at hlk2
          exact hlk2
      obtain ⟨h1, h2, h3⟩ := hcS s o2 hold
      refine ⟨h1, h2, ?_⟩
      rw [alistLookup_erase]
      by_cases hk2 : o2.key = key
      · exfalso
        have h4 := h3
        rw [hk2, hlk] at h4
        injection h4 with ho2
        have hss : opt.short = s := by rw [← h1, ← ho2]
        by_cases hs : opt.short ≠ []
        · exact (hsneOpt hs) (hss.symm)
        · have hse : opt.short = [] := not_not.mp hs
          rw [hss] at hse
          exact h2 hse
      · rw [if_neg hk2]
        exact h3
    · intro l o2 hlk2
      have hlneOpt : opt.long ≠ [] → l ≠ opt.long := by
        intro hl
        have h := hlk2
        rw [if_pos hl, alistLookup_erase] at h
        by_cases hleq : l = opt.long
        · rw [if_pos hleq] at h; exact Option.noConfusion h
        · exact hleq
      have hold : alistLookup reg.longKeys l = some o2 := by
        by_cases hl : opt.long ≠ []
        · rw [if_pos hl, alistLookup_erase, if_neg (hlneOpt hl)] at hlk2
          exact hlk2
        · rw [if_neg hl] at hlk2
          exact hlk2
      obtain ⟨h1, h2, h3⟩ := hcL l o2 hold
      refine ⟨h1, h2, ?_⟩
      rw [alistLookup_erase]
      by_cases hk2 : o2.key = key
      · exfalso
        have h4 := h3
        rw [hk2, hlk] at h4
        injection h4 with ho2
        have hll : opt.long = l := by rw [← h1, ← ho2]
        by_cases hl : opt.long ≠ []
        · exact (hlneOpt hl) (hll.symm)
        · have hle : opt.long = [] := not_not.mp hl
          rw [hll] at hle
          exact h2 hle
      · rw [if_neg hk2]
        exact h3
    · intro k o2 hlk2
      rw [alistLookup_erase] at hlk2
      by_cases hk2 : k = key
      · rw [if_pos hk2] at hlk2; exact Option.noConfusion hlk2
      · rw [if_neg hk2] at hlk2
        obtain ⟨h1, h2, h3⟩ := hcO k o2 hlk2
        refine ⟨h1, ?_, ?_⟩
        · intro hsne
          have hold := h2 hsne
          by_cases hs : opt.short ≠ []
          · rw [if_pos hs, alistLookup_erase]
            by_cases hseq : o2.short = opt.short
            · exfalso
              rw [hseq] at hold
              have hopt2 := (hcO key opt hlk).2.1 hs
              rw [hopt2] at hold
              injection hold with ho2
              exact hk2 (by rw [← h1, ← ho2]; exact hkey)
            · rw [if_neg hseq]
              exact hold
          · rw [if_neg hs]
            exact hold
        · intro hlne
          have hold := h3 hlne
          by_cases hl : opt.long ≠ []
          · rw [if_pos hl, alistLookup_erase]
            by_cases hleq : o2.long = opt.long
            · exfalso
              rw [hleq] at hold
              have hopt2 := (hcO key opt hlk).2.2 hl
              rw [hopt2] at hold
              injection hold with ho2
              exact hk2 (by rw [← h1, ← ho2]; exact hkey)
            · rw [if_neg hleq]
              exact hold
          · rw [if_neg hl]
            exact hold
    · intro k
      by_cases hk2 : k = key
      · subst hk2
        have hO : alistLookup (alistErase reg.opts k) k = none := by
          rw [alistLookup_erase]; simp
        constructor
        · intro hsome
          exfalso
          by_cases hr : opt.required = true
          · rw [if_pos hr, hkey, alistLookup_erase] at hsome
            simp at hsome
          · rw [if_neg hr] at hsome
            obtain ⟨o2, h2, hreq2⟩ := (hcR k).mp hsome
            rw [hlk] at h2
            injection h2 with ho2
            rw [← ho2] at hreq2
            exact absurd hreq2 hr
        · rintro ⟨o2, h2, _⟩
          rw [hO] at h2
          exact Option.noConfusion h2
      · have hR : alistLookup
            (if opt.required then alistErase reg.requiredOpts opt.key else reg.requiredOpts) k
              = alistLookup reg.requiredOpts k := by
          by_cases hr : opt.required = true
          · rw [if_pos hr, hkey, alistLookup_erase, if_neg hk2]
          · rw [if_neg hr]
        have hOk : alistLookup (alistErase reg.opts key) k = alistLookup reg.opts k := by
          rw [alistLookup_erase, if_neg hk2]
        rw [hR, hOk]
        exact hcR k

theorem consistent_foldClear (ks : List Str) :
    ∀ p : Registry × ScanSt, consistentReg p.1 →
      consistentReg ((ks.foldl (fun acc k => Clear acc.1 acc.2 k) p)).1 := by
  induction ks with
  | nil => intro p hp; exact hp
  | cons k rest ih =>
    intro p hp
    simp only [List.foldl_cons]
    exact ih (Clear p.1 p.2 k) (consistent_erase p.1 p.2 k hp)

theorem ClearAll_consistent (reg : Registry) (st : ScanSt) (hc : consistentReg reg) :
    consistentReg (ClearAll reg st).1 := by
  unfold ClearAll
  dsimp only
  exact consistent_foldClear _ (reg, st) hc

theorem emptyRegistry_consistent : consistentReg emptyRegistry := by
  refine ⟨?_, ?_, ?_, ?_⟩
  · intro s o h; exact Option.noConfusion h
  · intro l o h; exact Option.noConfusion h
  · intro k o h; exact Option.noConfusion h
  · intro k
    constructor
    · intro h; simp [emptyRegistry, alistLookup] at h
    · rintro ⟨o, h, _⟩; exact Option.noConfusion h

theorem applyAction_consistent (p : Registry × ScanSt) (a : RegAction)
    (hc : consistentReg p.1) : consistentReg (applyAction p a).1 := by
  obtain ⟨reg, st⟩ := p
  cases a with
  | register k l s b r u => exact RegisterOpt_consistent reg k l s b r u hc
  | clearOne k => exact consistent_erase reg st k hc
  | clearAll => exact ClearAll_consistent reg st hc

/-- C9: after every sequence of register, clear-single-option and clear-all
operations starting from the initial empty state, the three registry indexes
are mutually consistent and the required set holds exactly the keys of
registered options marked required. -/
theorem c9_index_consistency (acts : List RegAction) :
    consistentReg (applyActions acts).1 := by
  suffices H : ∀ (as : List RegAction) (p : Registry × ScanSt), consistentReg p.1 →
      consistentReg (as.foldl applyAction p).1 by
    exact H acts (emptyRegistry, emptyScan) emptyRegistry_consistent
  intro as
  induction as with
  | nil => intro p hp; exact hp
  | cons a rest ih =>
    intro p hp
    simp only [List.foldl_cons]
    exact ih (applyAction p a) (applyAction_consistent p a hp)

end Gogetopt
